import Mathlib

/-!
Verification of the bdns_core library against its specification.

This file gives a shallow embedding, in Lean 4, of the parts of the
repository that the checked properties talk about:

* the JWT authentication helpers (`auth/jwt_auth.py`),
* the tax-identifier interpretation utilities (`db/nif_utils.py`),
* the text normalisation utility (`db/utils.py`),
* the subsidy-equivalence placeholder rules (`business/equivalencia.py`),
* the user update service (`auth/service.py`),
* the derived amount of a grant row (`db/models.py`, `Concesion`).

Modelling conventions:

* Python `Optional[T]` values become `Option T`; `None` becomes `none`.
* Machine time is an explicit `Int` parameter (seconds since the epoch);
  `datetime.utcnow()` becomes a `now` argument threaded through the
  token functions, and a `timedelta` becomes its total number of seconds.
* A signed JWT is modelled as its payload: every `Jwt` value of the model
  stands for a token signed with the module's fixed secret, so signature
  verification always succeeds and only the expiry check can fail, which
  is exactly the situation for tokens produced by this module's own
  creation functions (the ones the properties quantify over).
* Python `float` arithmetic is modelled with the rationals `ℚ`; the
  numeric literals 0.15, 0.25, 0.05 of the source become the exact
  rationals 15/100, 25/100, 5/100.
* Python strings are `String`/`List Char`; `str.upper` is modelled on the
  ASCII letters (the only ones the checked properties exercise), and the
  whitespace set of `str.strip` and of the regex class is the ASCII part
  of Python's whitespace set.
-/

namespace Bdns

/-! ### Shared character helpers (Python string semantics on ASCII) -/

/-- The ASCII characters Python treats as whitespace, both for `str.strip`
and for the regex class of whitespace: horizontal tab through carriage
return (9–13), the separator control characters (28–31) and the space. -/
def pyIsSpace (c : Char) : Bool :=
  (9 ≤ c.toNat && c.toNat ≤ 13) || (28 ≤ c.toNat && c.toNat ≤ 32)

/-- `str.upper`, restricted to the ASCII letters: each lowercase ASCII
letter maps to its uppercase form, every other character is unchanged. -/
def pyUpperChar (c : Char) : Char :=
  match c with
  | 'a' => 'A' | 'b' => 'B' | 'c' => 'C' | 'd' => 'D' | 'e' => 'E'
  | 'f' => 'F' | 'g' => 'G' | 'h' => 'H' | 'i' => 'I' | 'j' => 'J'
  | 'k' => 'K' | 'l' => 'L' | 'm' => 'M' | 'n' => 'N' | 'o' => 'O'
  | 'p' => 'P' | 'q' => 'Q' | 'r' => 'R' | 's' => 'S' | 't' => 'T'
  | 'u' => 'U' | 'v' => 'V' | 'w' => 'W' | 'x' => 'X' | 'y' => 'Y'
  | 'z' => 'Z'
  | c => c

/-- Python `str.strip()`: remove leading and trailing whitespace. -/
def pyStrip (l : List Char) : List Char :=
  ((l.dropWhile pyIsSpace).reverse.dropWhile pyIsSpace).reverse

/-- Python `str.isdigit` restricted to the ASCII digits `'0'`–`'9'`. -/
def pyIsDigit (c : Char) : Bool :=
  '0' ≤ c && c ≤ '9'

/-! ### JWT authentication (`bdns_core/auth/jwt_auth.py`)

`SECRET_KEY` and `ALGORITHM` are fixed module constants; since every
function of the module signs and verifies with the same pair, they do not
appear in the model (see the `Jwt` convention in the header). -/

def ACCESS_TOKEN_EXPIRE_MINUTES : Int := 30

def REFRESH_TOKEN_EXPIRE_DAYS : Int := 7

/-- The claim keys of a token payload that the module reads or writes:
`sub`, `role` and `type`.  A field is `none` when the key is absent from
the payload dictionary. -/
structure Claims where
  sub : Option String
  role : Option String
  type : Option String
deriving Repr, DecidableEq

/-- A signed token: its claim set together with the `exp` claim stamped
by the creating function (seconds since the epoch). -/
structure Jwt where
  claims : Claims
  exp : Int
deriving Repr, DecidableEq

/-- `UserInToken`: the user extracted from a verified token. -/
structure UserInToken where
  username : String
  role : String
deriving Repr, DecidableEq

/-- `Token`: the response pair of an authentication. -/
structure Token where
  access_token : Jwt
  refresh_token : Jwt
  token_type : String
deriving Repr, DecidableEq

/-- `create_access_token(data, expires_delta)`: copy the claims and stamp
`exp` as `now` plus the requested lifetime, defaulting to 30 minutes.
A zero `expires_delta` is falsy in Python (`if expires_delta:`), so it
also selects the default lifetime. -/
def create_access_token (data : Claims) (now : Int) (expires_delta : Option Int) : Jwt :=
  let expire : Int :=
    match expires_delta with
    | some d => if d = 0 then now + ACCESS_TOKEN_EXPIRE_MINUTES * 60 else now + d
    | none => now + ACCESS_TOKEN_EXPIRE_MINUTES * 60
  ⟨data, expire⟩

/-- `create_refresh_token(data)`: copy the claims, stamp a 7-day expiry
and overwrite the `type` key with `"refresh"`. -/
def create_refresh_token (data : Claims) (now : Int) : Jwt :=
  ⟨⟨data.sub, data.role, some "refresh"⟩, now + REFRESH_TOKEN_EXPIRE_DAYS * 86400⟩

/-- `decode_token(token)`: signature verification plus expiry check; the
underlying codec rejects the token exactly when its `exp` claim is
strictly in the past.  Returns the payload, or `none`. -/
def decode_token (token : Jwt) (now : Int) : Option Jwt :=
  if token.exp < now then none else some token

/-- `verify_token(token)`: decode, then require a `sub` claim; the `role`
claim defaults to `"user"` when absent. -/
def verify_token (token : Jwt) (now : Int) : Option UserInToken :=
  match decode_token token now with
  | none => none
  | some payload =>
    match payload.claims.sub with
    | none => none
    | some username => some ⟨username, payload.claims.role.getD "user"⟩

/-- `create_token_pair(username, role)`: access and refresh token from
the claim set `{sub: username, role: role}`. -/
def create_token_pair (username : String) (role : String) (now : Int) : Token :=
  ⟨create_access_token ⟨some username, some role, none⟩ now none,
   create_refresh_token ⟨some username, some role, none⟩ now,
   "bearer"⟩

/-- `refresh_access_token(refresh_token)`: decode, require the type
marker to be exactly `"refresh"` and a `sub` claim to be present, then
mint a fresh access token from the same identity and role. -/
def refresh_access_token (refresh_token : Jwt) (now : Int) : Option Jwt :=
  match decode_token refresh_token now with
  | none => none
  | some payload =>
    if payload.claims.type ≠ some "refresh" then none
    else
      match payload.claims.sub with
      | none => none
      | some username =>
        some (create_access_token ⟨some username, some (payload.claims.role.getD "user"), none⟩ now none)

/-! ### Tax-identifier interpretation (`db/nif_utils.py`) -/

/-- The fixed lookup table from the first letter of a CIF to the legal
form it encodes (Orden EHA/451/2008). -/
def FORMAS_JURIDICAS_NIF : List (Char × String) :=
  [('A', "Sociedad Anónima (SA)"),
   ('B', "Sociedad de Responsabilidad Limitada (SL)"),
   ('C', "Sociedad Colectiva"),
   ('D', "Sociedad Comanditaria"),
   ('E', "Comunidades de Bienes"),
   ('F', "Sociedad Cooperativa"),
   ('G', "Asociaciones"),
   ('H', "Comunidades de Propietarios en régimen de propiedad horizontal"),
   ('J', "Sociedades Civiles (con o sin personalidad jurídica)"),
   ('N', "Entidades no residentes en España"),
   ('P', "Corporaciones Locales"),
   ('Q', "Organismos Públicos"),
   ('R', "Congregaciones e instituciones religiosas"),
   ('S', "Órganos de la Administración del Estado y Comunidades Autónomas"),
   ('U', "Uniones Temporales de Empresas (UTE)"),
   ('V', "Otros tipos no definidos"),
   ('W', "Establecimientos permanentes de entidades no residentes en España")]

/-- `nif.strip().upper()` as a character list. -/
def limpiarNif (s : String) : List Char :=
  (pyStrip s.data).map pyUpperChar

/-- `interpretar_forma_juridica_desde_nif(nif)`: classify a tax
identifier into a legal-form description.  Absent or empty input is
unknown; an identifier containing an asterisk is an anonymised natural
person; a first letter in the table is the mapped legal form; a digit or
an X/Y/Z prefix is a natural person; anything else is unknown. -/
def interpretar_forma_juridica_desde_nif (nif : Option String) : String :=
  match nif with
  | none => "Desconocido"
  | some s =>
    if s.isEmpty then "Desconocido"
    else
      let nif_clean := limpiarNif s
      if nif_clean.contains '*' then "Persona física"
      else
        match nif_clean with
        | [] => "Desconocido"
        | primer_char :: _ =>
          match FORMAS_JURIDICAS_NIF.lookup primer_char with
          | some forma => forma
          | none =>
            if pyIsDigit primer_char then "Persona física"
            else if primer_char = 'X' ∨ primer_char = 'Y' ∨ primer_char = 'Z' then "Persona física"
            else "Desconocido"

/-- `es_persona_fisica(nif)`: the classification is exactly the
natural-person description. -/
def es_persona_fisica (nif : Option String) : Bool :=
  interpretar_forma_juridica_desde_nif nif == "Persona física"

/-- `es_persona_juridica(nif)`: the classification is neither the
natural-person description nor unknown. -/
def es_persona_juridica (nif : Option String) : Bool :=
  let forma := interpretar_forma_juridica_desde_nif nif
  !(forma == "Persona física") && !(forma == "Desconocido")

/-- `obtener_codigo_natural_desde_nif(nif)`: the single character used to
index the legal-form catalogue: `*` for natural-person-shaped
identifiers, the matched table letter for recognised legal forms, and
`?` otherwise. -/
def obtener_codigo_natural_desde_nif (nif : Option String) : String :=
  match nif with
  | none => "?"
  | some s =>
    if s.isEmpty then "?"
    else
      let nif_clean := limpiarNif s
      if nif_clean.contains '*' then "*"
      else
        match nif_clean with
        | [] => "?"
        | primer_char :: _ =>
          if (FORMAS_JURIDICAS_NIF.lookup primer_char).isSome then String.mk [primer_char]
          else if pyIsDigit primer_char then "*"
          else if primer_char = 'X' ∨ primer_char = 'Y' ∨ primer_char = 'Z' then "*"
          else "?"

/-- The complete list of values `interpretar_forma_juridica_desde_nif`
can return: the seventeen table descriptions plus the natural-person and
unknown markers. -/
def SALIDAS_FORMA_JURIDICA : List String :=
  FORMAS_JURIDICAS_NIF.map Prod.snd ++ ["Persona física", "Desconocido"]

/-! ### Text normalisation (`db/utils.py`, `normalizar`) -/

/-- The punctuation marks whose preceding whitespace `normalizar`
removes: `.`, `,`, `:`, `;`. -/
def esPuntuacion (c : Char) : Bool :=
  c = '.' || c = ',' || c = ':' || c = ';'

/-- One character of `unicodedata.normalize("NFKD", ·)` followed by
`encode("ASCII", "ignore")`: an ASCII character is untouched; the common
Spanish accented letters decompose to their base ASCII letter (the
combining accent is dropped by the ASCII encoding); every other
non-ASCII character has no ASCII-producing decomposition and is dropped
entirely. -/
def NFKD_ASCII_TABLE : List (Char × List Char) :=
  [('á', ['a']), ('é', ['e']), ('í', ['i']), ('ó', ['o']), ('ú', ['u']),
   ('Á', ['A']), ('É', ['E']), ('Í', ['I']), ('Ó', ['O']), ('Ú', ['U']),
   ('à', ['a']), ('è', ['e']), ('ì', ['i']), ('ò', ['o']), ('ù', ['u']),
   ('À', ['A']), ('È', ['E']), ('Ì', ['I']), ('Ò', ['O']), ('Ù', ['U']),
   ('ä', ['a']), ('ë', ['e']), ('ï', ['i']), ('ö', ['o']), ('ü', ['u']),
   ('Ä', ['A']), ('Ë', ['E']), ('Ï', ['I']), ('Ö', ['O']), ('Ü', ['U']),
   ('â', ['a']), ('ê', ['e']), ('î', ['i']), ('ô', ['o']), ('û', ['u']),
   ('Â', ['A']), ('Ê', ['E']), ('Î', ['I']), ('Ô', ['O']), ('Û', ['U']),
   ('ñ', ['n']), ('Ñ', ['N']), ('ç', ['c']), ('Ç', ['C']),
   ('ª', ['a']), ('º', ['o'])]

/-- NFKD decomposition followed by ASCII filtering, per character. -/
def nfkdCharAscii (c : Char) : List Char :=
  if c.toNat < 128 then [c] else (NFKD_ASCII_TABLE.lookup c).getD []

/-- The substitution `re.sub(r"\s+", " ", ·)`: every maximal run of
whitespace becomes a single space. -/
def collapseWs : List Char → List Char
  | [] => []
  | [c] => [if pyIsSpace c then ' ' else c]
  | c₁ :: c₂ :: rest =>
    if pyIsSpace c₁ && pyIsSpace c₂ then collapseWs (c₂ :: rest)
    else (if pyIsSpace c₁ then ' ' else c₁) :: collapseWs (c₂ :: rest)

/-- Whether the first non-whitespace character of the list exists and is
one of the four punctuation marks. -/
def nextNonWsIsPunct (l : List Char) : Bool :=
  match l.dropWhile pyIsSpace with
  | [] => false
  | c :: _ => esPuntuacion c

/-- The substitution `re.sub(r"\s+([.,:;])", r"\1", ·)`: a whitespace
character is deleted exactly when the first non-whitespace character
after it is one of the four punctuation marks. -/
def stripWsBeforePunct : List Char → List Char
  | [] => []
  | c :: rest =>
    if pyIsSpace c && nextNonWsIsPunct rest then stripWsBeforePunct rest
    else c :: stripWsBeforePunct rest

/-- `normalizar(texto)`: `None` or the empty string yield `None`;
otherwise strip accents to ASCII, uppercase, strip the ends, collapse
whitespace runs to one space and remove whitespace before punctuation. -/
def normalizar (texto : Option String) : Option String :=
  match texto with
  | none => none
  | some s =>
    if s.isEmpty then none
    else
      let t₁ := s.data.flatMap nfkdCharAscii
      let t₂ := pyStrip (t₁.map pyUpperChar)
      let t₃ := collapseWs t₂
      let t₄ := stripWsBeforePunct t₃
      some (String.mk t₄)

/-! ### Subsidy-equivalence placeholder (`business/equivalencia.py`)

Python floats become `ℚ`; the `date` argument carried (and ignored) by
the placeholder rules becomes an opaque `Int` (days since the epoch). -/

/-- The instrument-specific metadata keys the placeholder rules read. -/
structure Metadata where
  plazo_meses : Option ℚ
  porcentaje_garantia : Option ℚ
deriving Repr, DecidableEq

/-- Loan placeholder rule: 15% of the principal under 60 months, 25%
from 60 months on; the term defaults to 60 months. -/
def calcularEquivalentePrestamoPlaceholder (importe_nominal : ℚ) (metadata : Metadata) : ℚ :=
  let plazo_meses := metadata.plazo_meses.getD 60
  if plazo_meses < 60 then importe_nominal * (15 / 100)
  else importe_nominal * (25 / 100)

/-- Guarantee placeholder rule: guaranteed amount × coverage percentage
(defaulting to 80, divided by 100) × 5%. -/
def calcularEquivalenteGarantiaPlaceholder (importe_nominal : ℚ) (metadata : Metadata) : ℚ :=
  let porcentaje_garantia := metadata.porcentaje_garantia.getD 80 / 100
  importe_nominal * porcentaje_garantia * (5 / 100)

/-- `calcular_importe_equivalente`: dispatch on the instrument type.
An absent or zero nominal amount yields 0; an absent instrument or a
direct grant passes the nominal amount through; loans and guarantees use
the placeholder rules; capital and tax-advantage instruments pass the
nominal amount through; any other instrument string passes the nominal
amount through (and logs a warning, modelled separately). -/
def calcular_importe_equivalente (importe_nominal : Option ℚ) (fecha_concesion : Int)
    (regimen_ayuda : Option String) (instrumento : Option String)
    (metadata : Option Metadata) : ℚ :=
  match importe_nominal with
  | none => 0
  | some nominal =>
    if nominal = 0 then 0
    else
      let md := metadata.getD ⟨none, none⟩
      match instrumento with
      | none => nominal
      | some instr =>
        if instr = "subvencion_directa" then nominal
        else if instr = "prestamo" then calcularEquivalentePrestamoPlaceholder nominal md
        else if instr = "garantia" then calcularEquivalenteGarantiaPlaceholder nominal md
        else if instr = "capital" then nominal
        else if instr = "ventaja_fiscal" then nominal
        else nominal

/-- Whether the `logger.warning` call of `calcular_importe_equivalente`
is reached: the nominal amount is present and nonzero and the instrument
string matches none of the recognised branches. -/
def calcularEmiteWarning (importe_nominal : Option ℚ) (instrumento : Option String) : Bool :=
  match importe_nominal with
  | none => false
  | some nominal =>
    if nominal = 0 then false
    else
      match instrumento with
      | none => false
      | some instr =>
        !(instr = "subvencion_directa" || instr = "prestamo" || instr = "garantia" ||
          instr = "capital" || instr = "ventaja_fiscal")

/-- The dictionary returned by `validar_limite_de_minimis`. -/
structure ResultadoMinimis where
  valido : Bool
  acumulado_previo : ℚ
  acumulado_total : ℚ
  limite_aplicable : ℚ
  margen_restante : ℚ
deriving Repr, DecidableEq

/-- `validar_limite_de_minimis`: the placeholder assumes zero prior aid
for the beneficiary, compares the new total against the flat general
ceiling of 300 000 € and reports the remaining headroom clamped at 0. -/
def validar_limite_de_minimis (beneficiario_id : String) (importe_equivalente_nuevo : ℚ)
    (fecha_concesion : Int) (periodo_ventana_anos : Int) : ResultadoMinimis :=
  let acumulado_previo : ℚ := 0
  let acumulado_total := acumulado_previo + importe_equivalente_nuevo
  let limite_aplicable : ℚ := 300000
  { valido := acumulado_total ≤ limite_aplicable
    acumulado_previo := acumulado_previo
    acumulado_total := acumulado_total
    limite_aplicable := limite_aplicable
    margen_restante := max 0 (limite_aplicable - acumulado_total) }

/-! ### User service (`auth/service.py`, `auth/models.py`, `db/models.py`)

The user store is modelled as the list of persisted rows; `query(...)
.filter(Usuario.id == user_id).first()` becomes a first-match search. -/

/-- The persisted columns of a `Usuario` row that `update_user` can
touch or must leave alone. -/
structure Usuario where
  id : String
  username : String
  email : String
  hashed_password : String
  nombre : Option String
  role : String
  activo : Bool
  telegram_chat_id : Option String
  telegram_username : Option String
  telegram_verificado : Bool
deriving Repr, DecidableEq

/-- `UsuarioUpdate`: the PATCH payload.  A `some` field is a field
explicitly present in the payload (`model_dump(exclude_unset=True)`
keeps exactly those); a `none` field was not supplied. -/
structure UsuarioUpdate where
  email : Option String
  nombre : Option String
  role : Option String
  activo : Option Bool
  telegram_chat_id : Option String
  telegram_username : Option String
  telegram_verificado : Option Bool
deriving Repr, DecidableEq

/-- The `setattr` loop of `update_user`: overwrite exactly the fields
present in the payload. -/
def aplicarUpdate (u : Usuario) (d : UsuarioUpdate) : Usuario :=
  { u with
    email := d.email.getD u.email
    nombre := match d.nombre with | some v => some v | none => u.nombre
    role := d.role.getD u.role
    activo := d.activo.getD u.activo
    telegram_chat_id := match d.telegram_chat_id with | some v => some v | none => u.telegram_chat_id
    telegram_username := match d.telegram_username with | some v => some v | none => u.telegram_username
    telegram_verificado := d.telegram_verificado.getD u.telegram_verificado }

/-- `get_user_by_id`: first row whose primary key matches. -/
def get_user_by_id (db : List Usuario) (user_id : String) : Option Usuario :=
  db.find? (fun u => u.id == user_id)

/-- Replace the first row whose primary key matches (the ORM mutates the
row `get_user_by_id` returned and commits). -/
def reemplazarUsuario : List Usuario → String → Usuario → List Usuario
  | [], _, _ => []
  | u :: rest, user_id, v =>
    if u.id == user_id then v :: rest else u :: reemplazarUsuario rest user_id v

/-- `update_user`: look the row up; if absent return `None` and leave
the store alone; otherwise apply exactly the supplied fields and persist
the row.  Returns the updated row and the resulting store. -/
def update_user (db : List Usuario) (user_id : String) (user_data : UsuarioUpdate) :
    Option Usuario × List Usuario :=
  match get_user_by_id db user_id with
  | none => (none, db)
  | some u =>
    let u' := aplicarUpdate u user_data
    (some u', reemplazarUsuario db user_id u')

/-! ### Derived grant amount (`db/models.py`, `Concesion`) -/

/-- The columns of a `RegimenAyuda` catalogue row. -/
structure RegimenAyudaRow where
  descripcion : String
  descripcion_norm : String
deriving Repr, DecidableEq

/-- The columns of a `Concesion` row that its derived properties read,
with the (nullable) link to its aid-regime catalogue row resolved. -/
structure Concesion where
  id_concesion : String
  importe_equivalente : Option Int
  importe_nominal : Option Int
  regimen_ayuda : Option RegimenAyudaRow
deriving Repr, DecidableEq

/-- `Concesion.regimen_tipo_norm`: the normalised regime description, or
`None` when the grant is unclassified. -/
def Concesion.regimen_tipo_norm (c : Concesion) : Option String :=
  match c.regimen_ayuda with
  | some r => some r.descripcion_norm
  | none => none

/-- `Concesion.es_ayuda_estado`: the regime is state aid. -/
def Concesion.es_ayuda_estado (c : Concesion) : Bool :=
  c.regimen_tipo_norm == some "ayuda_estado"

/-- `Concesion.es_minimis`: the regime is de-minimis. -/
def Concesion.es_minimis (c : Concesion) : Bool :=
  c.regimen_tipo_norm == some "minimis"

/-- `Concesion.importe`: the amount counted for regulatory purposes —
the equivalent amount under state aid, else the nominal amount, the
unset field counting as 0 (`x or 0`). -/
def Concesion.importe (c : Concesion) : Int :=
  if c.es_ayuda_estado then c.importe_equivalente.getD 0
  else c.importe_nominal.getD 0

/-! ## Theorems -/

/-! #### Lemmas about the lookup table -/

theorem lookup_formas_mem_salidas (c : Char) (v : String)
    (h : FORMAS_JURIDICAS_NIF.lookup c = some v) : v ∈ SALIDAS_FORMA_JURIDICA := by
  simp only [FORMAS_JURIDICAS_NIF, List.lookup] at h
  repeat' split at h
  all_goals simp_all [SALIDAS_FORMA_JURIDICA, FORMAS_JURIDICAS_NIF]

theorem lookup_formas_ne_fisica (c : Char) (v : String)
    (h : FORMAS_JURIDICAS_NIF.lookup c = some v) : v ≠ "Persona física" := by
  simp only [FORMAS_JURIDICAS_NIF, List.lookup] at h
  repeat' split at h
  all_goals try (injection h with h; subst h)
  all_goals first | decide | simp_all

/-! #### C3 — totality of the tax-identifier classification -/

/-- Claim C3 (amended): the classification is total — for every input
string and for absent input it returns one of the nineteen fixed strings
(the seventeen table descriptions, the natural-person marker and the
unknown marker; the claim's count of eighteen is off by one) — with the
stated concrete values. -/
theorem forma_juridica_total :
    (∀ nif : Option String,
        interpretar_forma_juridica_desde_nif nif ∈ SALIDAS_FORMA_JURIDICA) ∧
    interpretar_forma_juridica_desde_nif (some "A12345678") = "Sociedad Anónima (SA)" ∧
    interpretar_forma_juridica_desde_nif (some "B87654321") =
      "Sociedad de Responsabilidad Limitada (SL)" ∧
    interpretar_forma_juridica_desde_nif (some "****5678A") = "Persona física" ∧
    interpretar_forma_juridica_desde_nif (some "12345678Z") = "Persona física" ∧
    interpretar_forma_juridica_desde_nif none = "Desconocido" := by
  refine ⟨?_, by decide, by decide, by decide, by decide, by decide⟩
  intro nif
  unfold interpretar_forma_juridica_desde_nif
  cases nif with
  | none => decide
  | some s =>
    dsimp only
    by_cases he : s.isEmpty
    · rw [if_pos he]; decide
    · rw [if_neg he]
      generalize limpiarNif s = l
      by_cases hast : l.contains '*'
      · rw [if_pos hast]; decide
      · rw [if_neg hast]
        cases l with
        | nil => decide
        | cons c rest =>
          dsimp only
          cases hl : FORMAS_JURIDICAS_NIF.lookup c with
          | some v =>
            exact lookup_formas_mem_salidas c v hl
          | none =>
            dsimp only
            by_cases hd : pyIsDigit c
            · rw [if_pos hd]; decide
            · rw [if_neg hd]
              by_cases hxyz : c = 'X' ∨ c = 'Y' ∨ c = 'Z'
              · rw [if_pos hxyz]; decide
              · rw [if_neg hxyz]; decide

/-- Counterexample to claim C3 as stated: no set of eighteen strings
contains every output of the classifier, because nineteen pairwise
distinct outputs are reachable. -/
theorem forma_juridica_not_eighteen :
    ¬ ∃ S : Finset String, S.card = 18 ∧
      ∀ nif : Option String, interpretar_forma_juridica_desde_nif nif ∈ S := by
  rintro ⟨S, hcard, hall⟩
  have hsub : ({"Sociedad Anónima (SA)",
      "Sociedad de Responsabilidad Limitada (SL)",
      "Sociedad Colectiva",
      "Sociedad Comanditaria",
      "Comunidades de Bienes",
      "Sociedad Cooperativa",
      "Asociaciones",
      "Comunidades de Propietarios en régimen de propiedad horizontal",
      "Sociedades Civiles (con o sin personalidad jurídica)",
      "Entidades no residentes en España",
      "Corporaciones Locales",
      "Organismos Públicos",
      "Congregaciones e instituciones religiosas",
      "Órganos de la Administración del Estado y Comunidades Autónomas",
      "Uniones Temporales de Empresas (UTE)",
      "Otros tipos no definidos",
      "Establecimientos permanentes de entidades no residentes en España",
      "Persona física",
      "Desconocido"} : Finset String) ⊆ S := by
    intro x hx
    simp only [Finset.mem_insert, Finset.mem_singleton] at hx
    rcases hx with h|h|h|h|h|h|h|h|h|h|h|h|h|h|h|h|h|h|h <;> subst h
    · exact (show interpretar_forma_juridica_desde_nif (some "A1") = "Sociedad Anónima (SA)" by decide) ▸ hall (some "A1")
    · exact (show interpretar_forma_juridica_desde_nif (some "B1") = "Sociedad de Responsabilidad Limitada (SL)" by decide) ▸ hall (some "B1")
    · exact (show interpretar_forma_juridica_desde_nif (some "C1") = "Sociedad Colectiva" by decide) ▸ hall (some "C1")
    · exact (show interpretar_forma_juridica_desde_nif (some "D1") = "Sociedad Comanditaria" by decide) ▸ hall (some "D1")
    · exact (show interpretar_forma_juridica_desde_nif (some "E1") = "Comunidades de Bienes" by decide) ▸ hall (some "E1")
    · exact (show interpretar_forma_juridica_desde_nif (some "F1") = "Sociedad Cooperativa" by decide) ▸ hall (some "F1")
    · exact (show interpretar_forma_juridica_desde_nif (some "G1") = "Asociaciones" by decide) ▸ hall (some "G1")
    · exact (show interpretar_forma_juridica_desde_nif (some "H1") = "Comunidades de Propietarios en régimen de propiedad horizontal" by decide) ▸ hall (some "H1")
    · exact (show interpretar_forma_juridica_desde_nif (some "J1") = "Sociedades Civiles (con o sin personalidad jurídica)" by decide) ▸ hall (some "J1")
    · exact (show interpretar_forma_juridica_desde_nif (some "N1") = "Entidades no residentes en España" by decide) ▸ hall (some "N1")
    · exact (show interpretar_forma_juridica_desde_nif (some "P1") = "Corporaciones Locales" by decide) ▸ hall (some "P1")
    · exact (show interpretar_forma_juridica_desde_nif (some "Q1") = "Organismos Públicos" by decide) ▸ hall (some "Q1")
    · exact (show interpretar_forma_juridica_desde_nif (some "R1") = "Congregaciones e instituciones religiosas" by decide) ▸ hall (some "R1")
    · exact (show interpretar_forma_juridica_desde_nif (some "S1") = "Órganos de la Administración del Estado y Comunidades Autónomas" by decide) ▸ hall (some "S1")
    · exact (show interpretar_forma_juridica_desde_nif (some "U1") = "Uniones Temporales de Empresas (UTE)" by decide) ▸ hall (some "U1")
    · exact (show interpretar_forma_juridica_desde_nif (some "V1") = "Otros tipos no definidos" by decide) ▸ hall (some "V1")
    · exact (show interpretar_forma_juridica_desde_nif (some "W1") = "Establecimientos permanentes de entidades no residentes en España" by decide) ▸ hall (some "W1")
    · exact (show interpretar_forma_juridica_desde_nif (some "12") = "Persona física" by decide) ▸ hall (some "12")
    · exact (show interpretar_forma_juridica_desde_nif none = "Desconocido" by decide) ▸ hall none
  have h19 := Finset.card_le_card hsub
  rw [hcard] at h19
  have : (19 : ℕ) ≤ 18 := le_trans (by decide) h19
  omega

/-! #### C4 — natural code agrees with the natural-person predicate -/

/-- Claim C4: for every identifier (including absent input),
`es_persona_fisica` holds exactly when `obtener_codigo_natural_desde_nif`
returns the asterisk code. -/
theorem codigo_natural_consistente (nif : Option String) :
    es_persona_fisica nif = true ↔ obtener_codigo_natural_desde_nif nif = "*" := by
  unfold es_persona_fisica interpretar_forma_juridica_desde_nif obtener_codigo_natural_desde_nif
  cases nif with
  | none => decide
  | some s =>
    dsimp only
    by_cases he : s.isEmpty
    · rw [if_pos he, if_pos he]; decide
    · rw [if_neg he, if_neg he]
      generalize limpiarNif s = l
      by_cases hast : l.contains '*'
      · rw [if_pos hast, if_pos hast]; decide
      · rw [if_neg hast, if_neg hast]
        cases l with
        | nil => decide
        | cons c rest =>
          dsimp only
          have hstar : c ≠ '*' := by
            intro hceq
            subst hceq
            simp [List.contains] at hast
          cases hl : FORMAS_JURIDICAS_NIF.lookup c with
          | some v =>
            rw [if_pos (by rfl : (some v).isSome = true)]
            dsimp only
            constructor
            · intro hbeq
              exact absurd (by simpa using hbeq) (lookup_formas_ne_fisica c v hl)
            · intro hmk
              have hc : c = '*' := by
                have hd := congrArg String.data hmk
                simpa using hd
              exact absurd hc hstar
          | none =>
            rw [if_neg (by simp : ¬(none : Option String).isSome = true)]
            dsimp only
            by_cases hd : pyIsDigit c
            · rw [if_pos hd, if_pos hd]; decide
            · rw [if_neg hd, if_neg hd]
              by_cases hxyz : c = 'X' ∨ c = 'Y' ∨ c = 'Z'
              · rw [if_pos hxyz, if_pos hxyz]; decide
              · rw [if_neg hxyz, if_neg hxyz]; decide

/-! #### C1 — token round-trip -/

/-- Claim C1: for every username and role, verifying the access token of
`create_token_pair(username, role)` within its lifetime returns the user
`(username, role)`; and any access token created with an explicit
lifetime, decoded strictly after its expiry instant, yields no result. -/
theorem token_round_trip :
    (∀ (username role : String) (now t : Int),
        t ≤ now + ACCESS_TOKEN_EXPIRE_MINUTES * 60 →
        verify_token (create_token_pair username role now).access_token t =
          some ⟨username, role⟩) ∧
    (∀ (data : Claims) (now lifetime t : Int),
        (create_access_token data now (some lifetime)).exp < t →
        decode_token (create_access_token data now (some lifetime)) t = none) := by
  constructor
  · intro username role now t ht
    simp only [create_token_pair, create_access_token, verify_token, decode_token]
    rw [if_neg (by omega)]
    rfl
  · intro data now lifetime t ht
    simp only [decode_token, if_pos ht]

/-- Witness for C1 at concrete inputs. -/
theorem token_round_trip_witness :
    verify_token (create_token_pair "alice" "admin" 0).access_token 0 =
      some ⟨"alice", "admin"⟩ ∧
    decode_token (create_access_token ⟨some "bob", some "user", none⟩ 0 (some 5)) 6 = none :=
  ⟨token_round_trip.1 "alice" "admin" 0 0 (by decide),
   token_round_trip.2 ⟨some "bob", some "user", none⟩ 0 5 6 (by decide)⟩

/-! #### C2 — refresh discipline -/

/-- Claim C2: a token minted by `create_access_token` from a payload
without the `type = "refresh"` marker is always rejected by
`refresh_access_token`, even at an instant where `decode_token` accepts
it; and `refresh_access_token` produces a token exactly when the
supplied token decodes (is unexpired), carries the exact `"refresh"`
type marker and carries a `sub` claim. -/
theorem refresh_discipline :
    (∀ (data : Claims) (expires_delta : Option Int) (now t : Int),
        data.type ≠ some "refresh" →
        refresh_access_token (create_access_token data now expires_delta) t = none) ∧
    (∀ (data : Claims) (expires_delta : Option Int) (now t : Int),
        t ≤ (create_access_token data now expires_delta).exp →
        decode_token (create_access_token data now expires_delta) t =
          some (create_access_token data now expires_delta)) ∧
    (∀ (token : Jwt) (now : Int),
        (refresh_access_token token now).isSome = true ↔
          (now ≤ token.exp ∧ token.claims.type = some "refresh" ∧
            token.claims.sub.isSome = true)) := by
  refine ⟨?_, ?_, ?_⟩
  · intro data expires_delta now t hty
    cases hdec : decode_token (create_access_token data now expires_delta) t with
    | none => unfold refresh_access_token; rw [hdec]
    | some payload =>
      have hp : payload = create_access_token data now expires_delta := by
        unfold decode_token at hdec
        split at hdec
        · simp at hdec
        · injection hdec with hh
          exact hh.symm
      subst hp
      unfold refresh_access_token
      rw [hdec]
      dsimp only
      rw [if_pos (by simpa [create_access_token] using hty)]
  · intro data expires_delta now t ht
    simp only [decode_token, if_neg (by omega : ¬(create_access_token data now expires_delta).exp < t)]
  · intro token now
    constructor
    · intro h
      unfold refresh_access_token at h
      split at h
      · simp at h
      · rename_i payload heq
        unfold decode_token at heq
        split at heq
        · simp at heq
        · rename_i hexp
          injection heq with heq
          subst heq
          split at h
          · simp at h
          · rename_i hty
            rw [not_ne_iff] at hty
            split at h
            · simp at h
            · rename_i u hu
              exact ⟨by omega, hty, by rw [hu]; rfl⟩
    · rintro ⟨h1, h2, h3⟩
      cases hu : token.claims.sub with
      | none => rw [hu] at h3; simp at h3
      | some u =>
        have hres : refresh_access_token token now =
            some (create_access_token ⟨some u, some (token.claims.role.getD "user"), none⟩ now none) := by
          unfold refresh_access_token decode_token
          rw [if_neg (by omega : ¬token.exp < now)]
          dsimp only
          rw [if_neg (by simp [h2] : ¬token.claims.type ≠ some "refresh"), hu]
        rw [hres]
        rfl

/-- Witness for C2 at concrete inputs. -/
theorem refresh_discipline_witness :
    refresh_access_token (create_access_token ⟨some "alice", some "user", none⟩ 0 none) 0 = none ∧
    decode_token (create_access_token ⟨some "alice", some "user", none⟩ 0 none) 0 =
      some (create_access_token ⟨some "alice", some "user", none⟩ 0 none) ∧
    ((refresh_access_token ⟨⟨some "alice", some "user", some "refresh"⟩, 100⟩ 0).isSome = true ↔
      (0 ≤ (100 : Int) ∧ (some "refresh" : Option String) = some "refresh" ∧
        (some "alice" : Option String).isSome = true)) :=
  ⟨refresh_discipline.1 ⟨some "alice", some "user", none⟩ none 0 0 (by decide),
   refresh_discipline.2.1 ⟨some "alice", some "user", none⟩ none 0 0 (by decide),
   refresh_discipline.2.2 ⟨⟨some "alice", some "user", some "refresh"⟩, 100⟩ 0⟩

/-! #### C10 — missing role claim defaults to "user" -/

/-- Claim C10: a decodable token with a `sub` claim but no `role` claim
verifies to role `"user"`, and a refresh of a role-less refresh token
mints the new access token with role `"user"`; a missing role claim
never causes verification or refresh to fail. -/
theorem role_claim_defaults :
    (∀ (token : Jwt) (now : Int) (u : String),
        token.claims.role = none → token.claims.sub = some u → now ≤ token.exp →
        verify_token token now = some ⟨u, "user"⟩) ∧
    (∀ (token : Jwt) (now : Int) (newTok : Jwt),
        token.claims.role = none →
        refresh_access_token token now = some newTok →
        newTok.claims.role = some "user") := by
  constructor
  · intro token now u hrole hsub hexp
    simp [verify_token, decode_token, if_neg (by omega : ¬token.exp < now), hsub, hrole]
  · intro token now newTok hrole h
    unfold refresh_access_token at h
    split at h
    · simp at h
    · rename_i payload heq
      unfold decode_token at heq
      split at heq
      · simp at heq
      · injection heq with heq
        subst heq
        split at h
        · simp at h
        · split at h
          · simp at h
          · rename_i u hu
            injection h with h
            rw [← h]
            simp [create_access_token, hrole]

/-- Witness for C10 at concrete inputs. -/
theorem role_claim_defaults_witness :
    verify_token ⟨⟨some "alice", none, none⟩, 100⟩ 0 = some ⟨"alice", "user"⟩ ∧
    (⟨⟨some "alice", some "user", none⟩, 1800⟩ : Jwt).claims.role = some "user" :=
  ⟨role_claim_defaults.1 ⟨⟨some "alice", none, none⟩, 100⟩ 0 "alice" rfl rfl (by decide),
   role_claim_defaults.2 ⟨⟨some "alice", none, some "refresh"⟩, 100⟩ 0
     ⟨⟨some "alice", some "user", none⟩, 1800⟩ rfl (by decide)⟩

/-! #### C5 — equivalence-calculation dispatch -/

/-- Claim C5: the equivalence calculation returns 0 for an absent or
zero nominal amount whatever the instrument; for a loan it returns 25%
of the principal from a 60-month term on (also when the term is
unspecified) and 15% under 60 months; for a guarantee it returns
nominal × (coverage ÷ 100, defaulting to 80) × 5%; and for an
unrecognised instrument string it returns the full nominal amount and
reaches the warning. -/
theorem equivalencia_dispatch :
    (∀ (fecha : Int) (reg instr : Option String) (md : Option Metadata),
        calcular_importe_equivalente none fecha reg instr md = 0 ∧
        calcular_importe_equivalente (some 0) fecha reg instr md = 0) ∧
    (∀ (nominal : ℚ) (fecha : Int) (reg : Option String) (pg : Option ℚ) (plazo : ℚ),
        nominal ≠ 0 →
        (60 ≤ plazo →
          calcular_importe_equivalente (some nominal) fecha reg (some "prestamo")
            (some ⟨some plazo, pg⟩) = nominal * (25 / 100)) ∧
        (plazo < 60 →
          calcular_importe_equivalente (some nominal) fecha reg (some "prestamo")
            (some ⟨some plazo, pg⟩) = nominal * (15 / 100)) ∧
        calcular_importe_equivalente (some nominal) fecha reg (some "prestamo")
          (some ⟨none, pg⟩) = nominal * (25 / 100)) ∧
    (∀ (nominal : ℚ) (fecha : Int) (reg : Option String) (plazo : Option ℚ) (pg : ℚ),
        nominal ≠ 0 →
        calcular_importe_equivalente (some nominal) fecha reg (some "garantia")
          (some ⟨plazo, some pg⟩) = nominal * (pg / 100) * (5 / 100) ∧
        calcular_importe_equivalente (some nominal) fecha reg (some "garantia")
          (some ⟨plazo, none⟩) = nominal * (80 / 100) * (5 / 100)) ∧
    (∀ (nominal : ℚ) (fecha : Int) (reg : Option String) (md : Option Metadata) (instr : String),
        nominal ≠ 0 →
        instr ∉ (["subvencion_directa", "prestamo", "garantia", "capital",
          "ventaja_fiscal"] : List String) →
        calcular_importe_equivalente (some nominal) fecha reg (some instr) md = nominal ∧
        calcularEmiteWarning (some nominal) (some instr) = true) := by
  refine ⟨?_, ?_, ?_, ?_⟩
  · intro fecha reg instr md
    constructor
    · rfl
    · simp [calcular_importe_equivalente]
  · intro nominal fecha reg pg plazo h
    refine ⟨?_, ?_, ?_⟩
    · intro h60
      simp [calcular_importe_equivalente, calcularEquivalentePrestamoPlaceholder, h,
        not_lt.mpr h60]
    · intro h60
      simp [calcular_importe_equivalente, calcularEquivalentePrestamoPlaceholder, h, h60]
    · simp [calcular_importe_equivalente, calcularEquivalentePrestamoPlaceholder, h]
  · intro nominal fecha reg plazo pg h
    constructor
    · simp [calcular_importe_equivalente, calcularEquivalenteGarantiaPlaceholder, h]
    · simp [calcular_importe_equivalente, calcularEquivalenteGarantiaPlaceholder, h]
  · intro nominal fecha reg md instr h hni
    simp only [List.mem_cons, List.not_mem_nil, or_false, not_or] at hni
    obtain ⟨h1, h2, h3, h4, h5⟩ := hni
    constructor
    · simp [calcular_importe_equivalente, h, h1, h2, h3, h4, h5]
    · simp [calcularEmiteWarning, h, h1, h2, h3, h4, h5]

/-- Witness for C5 at concrete inputs. -/
theorem equivalencia_dispatch_witness :
    calcular_importe_equivalente none 0 none none none = 0 ∧
    calcular_importe_equivalente (some 100000) 0 none (some "prestamo")
      (some ⟨some 60, none⟩) = 100000 * (25 / 100) ∧
    calcular_importe_equivalente (some 100000) 0 none (some "prestamo")
      (some ⟨some 59, none⟩) = 100000 * (15 / 100) ∧
    calcular_importe_equivalente (some 100000) 0 none (some "garantia")
      (some ⟨none, none⟩) = 100000 * (80 / 100) * (5 / 100) ∧
    calcular_importe_equivalente (some 100000) 0 none (some "otro") none = 100000 ∧
    calcularEmiteWarning (some 100000) (some "otro") = true := by
  have hz := (equivalencia_dispatch.1 0 none none none).1
  have hp60 := (equivalencia_dispatch.2.1 100000 0 none none 60 (by norm_num)).1 (by norm_num)
  have hp59 := (equivalencia_dispatch.2.1 100000 0 none none 59 (by norm_num)).2.1 (by norm_num)
  have hg := (equivalencia_dispatch.2.2.1 100000 0 none none 80 (by norm_num)).2
  have ho := equivalencia_dispatch.2.2.2 100000 0 none none "otro" (by norm_num) (by decide)
  exact ⟨hz, hp60, hp59, hg, ho.1, ho.2⟩

/-! #### C6 — de-minimis ceiling arithmetic -/

/-- Claim C6: for every beneficiary, date and window the check assumes
zero prior aid, totals only the new amount, applies the flat 300 000 €
ceiling, is valid exactly when the total stays within it, and reports a
never-negative headroom; with the stated concrete outcomes at 250 000
and 350 000. -/
theorem minimis_arithmetic :
    (∀ (bid : String) (importe : ℚ) (fecha ventana : Int),
        (validar_limite_de_minimis bid importe fecha ventana).acumulado_previo = 0 ∧
        (validar_limite_de_minimis bid importe fecha ventana).acumulado_total = importe ∧
        (validar_limite_de_minimis bid importe fecha ventana).limite_aplicable = 300000 ∧
        ((validar_limite_de_minimis bid importe fecha ventana).valido = true ↔
          importe ≤ 300000) ∧
        (validar_limite_de_minimis bid importe fecha ventana).margen_restante =
          max 0 (300000 - importe) ∧
        0 ≤ (validar_limite_de_minimis bid importe fecha ventana).margen_restante) ∧
    ((validar_limite_de_minimis "b" 250000 0 3).valido = true ∧
      (validar_limite_de_minimis "b" 250000 0 3).margen_restante = 50000) ∧
    ((validar_limite_de_minimis "b" 350000 0 3).valido = false ∧
      (validar_limite_de_minimis "b" 350000 0 3).margen_restante = 0) := by
  refine ⟨?_, ⟨by norm_num [validar_limite_de_minimis], by norm_num [validar_limite_de_minimis]⟩,
    ⟨by norm_num [validar_limite_de_minimis], by norm_num [validar_limite_de_minimis]⟩⟩
  intro bid importe fecha ventana
  refine ⟨rfl, by simp [validar_limite_de_minimis], rfl, ?_, ?_, ?_⟩
  · simp [validar_limite_de_minimis]
  · simp [validar_limite_de_minimis]
  · simp only [validar_limite_de_minimis]
    exact le_max_left 0 _

/-! #### C8 — partial update semantics of `update_user` -/

/-- Claim C8: an update payload in which only the role is set changes
only the role of the targeted row and leaves every other stored field
unchanged; and an update aimed at an id absent from the store returns no
result and leaves the store unchanged. -/
theorem update_user_patch_semantics :
    (∀ (db : List Usuario) (user_id : String) (u : Usuario) (r : String) (u' : Usuario),
        get_user_by_id db user_id = some u →
        (update_user db user_id ⟨none, none, some r, none, none, none, none⟩).1 = some u' →
        u'.role = r ∧ u'.id = u.id ∧ u'.username = u.username ∧ u'.email = u.email ∧
        u'.hashed_password = u.hashed_password ∧ u'.nombre = u.nombre ∧
        u'.activo = u.activo ∧ u'.telegram_chat_id = u.telegram_chat_id ∧
        u'.telegram_username = u.telegram_username ∧
        u'.telegram_verificado = u.telegram_verificado) ∧
    (∀ (db : List Usuario) (user_id : String) (d : UsuarioUpdate),
        get_user_by_id db user_id = none →
        update_user db user_id d = (none, db)) := by
  constructor
  · intro db user_id u r u' hget hupd
    unfold update_user at hupd
    rw [hget] at hupd
    dsimp only at hupd
    injection hupd with hupd
    rw [← hupd]
    exact ⟨rfl, rfl, rfl, rfl, rfl, rfl, rfl, rfl, rfl, rfl⟩
  · intro db user_id d hget
    unfold update_user
    rw [hget]

/-- Witness for C8 at a one-row store. -/
theorem update_user_patch_witness :
    ((update_user [⟨"u1", "alice", "alice@example.org", "h4sh", none, "user", true,
        none, none, false⟩] "u1" ⟨none, none, some "viewer", none, none, none, none⟩).1 =
      some ⟨"u1", "alice", "alice@example.org", "h4sh", none, "viewer", true,
        none, none, false⟩) ∧
    (⟨"u1", "alice", "alice@example.org", "h4sh", none, "viewer", true, none, none,
      false⟩ : Usuario).role = "viewer" ∧
    update_user [] "u1" ⟨none, none, some "viewer", none, none, none, none⟩ =
      (none, ([] : List Usuario)) := by
  refine ⟨by decide, ?_,
    update_user_patch_semantics.2 [] "u1" ⟨none, none, some "viewer", none, none, none, none⟩
      (by decide)⟩
  exact (update_user_patch_semantics.1
    [⟨"u1", "alice", "alice@example.org", "h4sh", none, "user", true, none, none, false⟩]
    "u1" ⟨"u1", "alice", "alice@example.org", "h4sh", none, "user", true, none, none, false⟩
    "viewer"
    ⟨"u1", "alice", "alice@example.org", "h4sh", none, "viewer", true, none, none, false⟩
    (by decide) (by decide)).1

/-! #### C9 — derived grant amount -/

/-- Claim C9: a grant row's derived `importe` equals its equivalent
amount exactly when the linked regime classifies as state aid (the
normalised regime description is `"ayuda_estado"`) and its nominal
amount otherwise, the selected field defaulting to 0 when unset. -/
theorem concesion_importe_derivado :
    (∀ (c : Concesion) (r : RegimenAyudaRow), c.regimen_ayuda = some r →
        (c.es_ayuda_estado = true ↔ r.descripcion_norm = "ayuda_estado")) ∧
    (∀ c : Concesion, c.regimen_ayuda = none → c.es_ayuda_estado = false) ∧
    (∀ c : Concesion, c.es_ayuda_estado = true →
        c.importe = c.importe_equivalente.getD 0) ∧
    (∀ c : Concesion, c.es_ayuda_estado = false →
        c.importe = c.importe_nominal.getD 0) := by
  refine ⟨?_, ?_, ?_, ?_⟩
  · intro c r hr
    simp [Concesion.es_ayuda_estado, Concesion.regimen_tipo_norm, hr]
  · intro c hr
    simp [Concesion.es_ayuda_estado, Concesion.regimen_tipo_norm, hr]
  · intro c hc
    simp [Concesion.importe, hc]
  · intro c hc
    simp [Concesion.importe, hc]

/-- Witness for C9 at concrete rows. -/
theorem concesion_importe_derivado_witness :
    ((⟨"c1", some 40, some 100, some ⟨"Ayuda de Estado", "ayuda_estado"⟩⟩ :
        Concesion).es_ayuda_estado = true ↔
      ("ayuda_estado" : String) = "ayuda_estado") ∧
    (⟨"c2", some 40, some 100, none⟩ : Concesion).es_ayuda_estado = false ∧
    (⟨"c1", some 40, some 100, some ⟨"Ayuda de Estado", "ayuda_estado"⟩⟩ :
        Concesion).importe = (some (40 : Int)).getD 0 ∧
    (⟨"c2", some 40, some 100, none⟩ : Concesion).importe = (some (100 : Int)).getD 0 :=
  ⟨concesion_importe_derivado.1 _ _ rfl,
   concesion_importe_derivado.2.1 _ rfl,
   concesion_importe_derivado.2.2.1
     ⟨"c1", some 40, some 100, some ⟨"Ayuda de Estado", "ayuda_estado"⟩⟩ (by decide),
   concesion_importe_derivado.2.2.2 ⟨"c2", some 40, some 100, none⟩ (by decide)⟩

/-! #### C7 — support for the normalisation development

Invariants of normalised character lists, and how each pipeline stage
establishes or preserves them. -/

/-- Every character of the list is ASCII. -/
def AllAscii (l : List Char) : Prop := ∀ c ∈ l, c.toNat < 128

/-- Every character of the list is a fixed point of the uppercase map. -/
def UpperFixed (l : List Char) : Prop := ∀ c ∈ l, pyUpperChar c = c

/-- Every whitespace character of the list is the plain space. -/
def WsIsSpace (l : List Char) : Prop := ∀ c ∈ l, pyIsSpace c = true → c = ' '

/-- No two adjacent characters of the list are both whitespace. -/
def NoWsRun (l : List Char) : Prop :=
  List.Chain' (fun a b => ¬(pyIsSpace a = true ∧ pyIsSpace b = true)) l

/-- Neither end of the list is whitespace. -/
def NoEdgeWs (l : List Char) : Prop :=
  (∀ c ∈ l.head?, pyIsSpace c = false) ∧ (∀ c ∈ l.getLast?, pyIsSpace c = false)

theorem pyUpperChar_range (c : Char) :
    pyUpperChar c = c ∨ pyUpperChar c ∈ ['A', 'B', 'C', 'D', 'E', 'F', 'G', 'H', 'I', 'J',
      'K', 'L', 'M', 'N', 'O', 'P', 'Q', 'R', 'S', 'T', 'U', 'V', 'W', 'X', 'Y', 'Z'] := by
  unfold pyUpperChar
  split
  all_goals first | (left; rfl) | (right; decide)

theorem pyUpperChar_idem (c : Char) : pyUpperChar (pyUpperChar c) = pyUpperChar c := by
  rcases pyUpperChar_range c with h | h
  · rw [h, h]
  · simp only [List.mem_cons, List.not_mem_nil, or_false] at h
    rcases h with h|h|h|h|h|h|h|h|h|h|h|h|h|h|h|h|h|h|h|h|h|h|h|h|h|h <;> rw [h] <;> decide

theorem pyUpperChar_ascii (c : Char) (h : c.toNat < 128) : (pyUpperChar c).toNat < 128 := by
  unfold pyUpperChar
  split <;> first | decide | exact h

theorem lookup_nfkd_ascii (c : Char) (v : List Char)
    (h : NFKD_ASCII_TABLE.lookup c = some v) : ∀ d ∈ v, d.toNat < 128 := by
  simp only [NFKD_ASCII_TABLE, List.lookup] at h
  repeat' split at h
  all_goals try (injection h with h; subst h)
  all_goals first | decide | simp_all

theorem nfkdCharAscii_ascii (c : Char) : ∀ d ∈ nfkdCharAscii c, d.toNat < 128 := by
  intro d hd
  unfold nfkdCharAscii at hd
  split at hd
  · rename_i h
    rw [List.mem_singleton] at hd
    exact hd ▸ h
  · cases hl : NFKD_ASCII_TABLE.lookup c with
    | none => rw [hl] at hd; simp at hd
    | some v => rw [hl] at hd; exact lookup_nfkd_ascii c v hl d hd

theorem nfkdCharAscii_of_ascii (c : Char) (h : c.toNat < 128) : nfkdCharAscii c = [c] := by
  unfold nfkdCharAscii
  rw [if_pos h]

theorem flatMap_nfkd_of_ascii {l : List Char} (h : AllAscii l) :
    l.flatMap nfkdCharAscii = l := by
  induction l with
  | nil => rfl
  | cons c rest ih =>
    rw [List.flatMap_cons, nfkdCharAscii_of_ascii c (h c (List.mem_cons_self c rest)),
      ih (fun d hd => h d (List.mem_cons_of_mem c hd))]
    rfl

theorem map_pyUpper_fixed {l : List Char} (h : UpperFixed l) : l.map pyUpperChar = l := by
  induction l with
  | nil => rfl
  | cons c rest ih =>
    rw [List.map_cons, h c (List.mem_cons_self c rest),
      ih (fun d hd => h d (List.mem_cons_of_mem c hd))]

theorem head?_dropWhile_false (p : Char → Bool) (l : List Char) (c : Char)
    (h : (l.dropWhile p).head? = some c) : p c = false := by
  induction l with
  | nil => simp at h
  | cons a t ih =>
    by_cases ha : p a
    · rw [List.dropWhile_cons, if_pos ha] at h
      exact ih h
    · rw [List.dropWhile_cons, if_neg ha] at h
      injection h with h
      subst h
      exact Bool.of_not_eq_true ha

theorem dropWhile_eq_self_of_head (p : Char → Bool) (l : List Char)
    (h : ∀ c ∈ l.head?, p c = false) : l.dropWhile p = l := by
  cases l with
  | nil => rfl
  | cons a t =>
    rw [List.dropWhile_cons, if_neg]
    simp only [List.head?_cons, Option.mem_def, Option.some.injEq] at h
    simp [h a rfl]

theorem mem_pyStrip {l : List Char} {c : Char} (h : c ∈ pyStrip l) : c ∈ l := by
  unfold pyStrip at h
  rw [List.mem_reverse] at h
  have h1 := (List.dropWhile_sublist pyIsSpace).subset h
  rw [List.mem_reverse] at h1
  exact (List.dropWhile_sublist pyIsSpace).subset h1

theorem pyStrip_noEdge (l : List Char) : NoEdgeWs (pyStrip l) := by
  constructor
  · intro c hc
    unfold pyStrip at hc
    rw [Option.mem_def] at hc
    rw [List.head?_reverse] at hc
    rcases hsuf : ((l.dropWhile pyIsSpace).reverse.dropWhile pyIsSpace) with _ | ⟨a, t⟩
    · rw [hsuf] at hc; simp at hc
    · have hne : (l.dropWhile pyIsSpace).reverse.dropWhile pyIsSpace ≠ [] := by
        rw [hsuf]; simp
      obtain ⟨t₀, ht₀⟩ := List.dropWhile_suffix (l := (l.dropWhile pyIsSpace).reverse) pyIsSpace
      have hgl : ((l.dropWhile pyIsSpace).reverse.dropWhile pyIsSpace).getLast? =
          ((l.dropWhile pyIsSpace).reverse).getLast? := by
        conv_rhs => rw [← ht₀]
        exact (List.getLast?_append_of_ne_nil t₀ hne).symm
      rw [hgl, List.getLast?_reverse] at hc
      exact head?_dropWhile_false pyIsSpace l c hc
  · intro c hc
    unfold pyStrip at hc
    rw [Option.mem_def, List.getLast?_reverse] at hc
    exact head?_dropWhile_false pyIsSpace _ c hc

theorem pyStrip_fix {l : List Char} (h : NoEdgeWs l) : pyStrip l = l := by
  unfold pyStrip
  rw [dropWhile_eq_self_of_head pyIsSpace l (fun c hc => h.1 c hc)]
  rw [dropWhile_eq_self_of_head pyIsSpace l.reverse
    (fun c hc => h.2 c (by rwa [List.head?_reverse] at hc))]
  exact List.reverse_reverse l

theorem collapseWs_wsIsSpace (l : List Char) : WsIsSpace (collapseWs l) := by
  induction l using collapseWs.induct with
  | case1 => intro d hd; simp [collapseWs] at hd
  | case2 c =>
    intro d hd hws
    simp only [collapseWs, List.mem_singleton] at hd
    subst hd
    by_cases hc : pyIsSpace c = true
    · rw [if_pos hc]
    · rw [if_neg hc] at hws ⊢
      exact absurd hws (by simp [hc])
  | case3 c₁ c₂ rest hcond ih =>
    simpa only [collapseWs, if_pos hcond] using ih
  | case4 c₁ c₂ rest hcond ih =>
    intro d hd hws
    simp only [collapseWs, if_neg hcond, List.mem_cons] at hd
    rcases hd with hd | hd
    · subst hd
      by_cases hc : pyIsSpace c₁ = true
      · rw [if_pos hc]
      · rw [if_neg hc] at hws ⊢
        exact absurd hws (by simp [hc])
    · exact ih d hd hws

theorem collapseWs_mem {l : List Char} {c : Char} (h : c ∈ collapseWs l) :
    c ∈ l ∨ c = ' ' := by
  induction l using collapseWs.induct with
  | case1 => simp [collapseWs] at h
  | case2 d =>
    simp only [collapseWs, List.mem_singleton] at h
    subst h
    by_cases hd : pyIsSpace d = true
    · rw [if_pos hd]; right; rfl
    · rw [if_neg hd]; left; exact List.mem_singleton_self d
  | case3 c₁ c₂ rest hcond ih =>
    rw [show collapseWs (c₁ :: c₂ :: rest) = collapseWs (c₂ :: rest) from by
      simp only [collapseWs, if_pos hcond]] at h
    rcases ih h with h | h
    · left; exact List.mem_cons_of_mem c₁ h
    · right; exact h
  | case4 c₁ c₂ rest hcond ih =>
    rw [show collapseWs (c₁ :: c₂ :: rest) =
        (if pyIsSpace c₁ then ' ' else c₁) :: collapseWs (c₂ :: rest) from by
      simp only [collapseWs, if_neg hcond]] at h
    rcases List.mem_cons.mp h with h | h
    · subst h
      by_cases hc : pyIsSpace c₁ = true
      · rw [if_pos hc]; right; rfl
      · rw [if_neg hc]; left; exact List.mem_cons_self c₁ _
    · rcases ih h with h | h
      · left; exact List.mem_cons_of_mem c₁ h
      · right; exact h

theorem collapseWs_head (d : Char) (m : List Char) :
    (collapseWs (d :: m)).head? = some (if pyIsSpace d then ' ' else d) := by
  induction m generalizing d with
  | nil => simp [collapseWs]
  | cons e m' ih =>
    by_cases hcond : (pyIsSpace d && pyIsSpace e) = true
    · rw [show collapseWs (d :: e :: m') = collapseWs (e :: m') from by
        simp only [collapseWs, if_pos hcond]]
      rw [ih e]
      obtain ⟨h1, h2⟩ : pyIsSpace d = true ∧ pyIsSpace e = true := by simpa using hcond
      rw [if_pos h2, if_pos h1]
    · rw [show collapseWs (d :: e :: m') =
          (if pyIsSpace d then ' ' else d) :: collapseWs (e :: m') from by
        simp only [collapseWs, if_neg hcond]]
      rfl

theorem collapseWs_ne_nil (d : Char) (m : List Char) : collapseWs (d :: m) ≠ [] := by
  intro h
  have := collapseWs_head d m
  rw [h] at this
  simp at this

theorem collapseWs_getLast (d : Char) (m : List Char) :
    (collapseWs (d :: m)).getLast? =
      (d :: m).getLast?.map (fun x => if pyIsSpace x then ' ' else x) := by
  induction m generalizing d with
  | nil => simp [collapseWs]
  | cons e m' ih =>
    by_cases hcond : (pyIsSpace d && pyIsSpace e) = true
    · rw [show collapseWs (d :: e :: m') = collapseWs (e :: m') from by
        simp only [collapseWs, if_pos hcond]]
      rw [ih e, List.getLast?_cons_cons]
    · rw [show collapseWs (d :: e :: m') =
          (if pyIsSpace d then ' ' else d) :: collapseWs (e :: m') from by
        simp only [collapseWs, if_neg hcond]]
      cases hce : collapseWs (e :: m') with
      | nil => exact absurd hce (collapseWs_ne_nil e m')
      | cons y t =>
        rw [List.getLast?_cons_cons, ← hce, ih e, List.getLast?_cons_cons]

theorem collapseWs_noWsRun (l : List Char) : NoWsRun (collapseWs l) := by
  induction l using collapseWs.induct with
  | case1 => exact List.chain'_nil
  | case2 c => exact List.chain'_singleton _
  | case3 c₁ c₂ rest hcond ih =>
    rw [NoWsRun, show collapseWs (c₁ :: c₂ :: rest) = collapseWs (c₂ :: rest) from by
      simp only [collapseWs, if_pos hcond]]
    exact ih
  | case4 c₁ c₂ rest hcond ih =>
    rw [NoWsRun, show collapseWs (c₁ :: c₂ :: rest) =
        (if pyIsSpace c₁ then ' ' else c₁) :: collapseWs (c₂ :: rest) from by
      simp only [collapseWs, if_neg hcond]]
    rw [List.chain'_cons']
    refine ⟨?_, ih⟩
    intro y hy
    rw [Option.mem_def, collapseWs_head c₂ rest, Option.some.injEq] at hy
    subst hy
    by_cases h1 : pyIsSpace c₁ = true <;> by_cases h2 : pyIsSpace c₂ = true
    · exact absurd (by simp [h1, h2]) hcond
    · simp [h1, h2]
    · simp [h1, h2]
    · simp [h1, h2]

theorem collapseWs_noEdge {l : List Char} (h : NoEdgeWs l) : NoEdgeWs (collapseWs l) := by
  cases l with
  | nil => exact ⟨by intro c hc; simp [collapseWs] at hc, by intro c hc; simp [collapseWs] at hc⟩
  | cons d m =>
    have hd : pyIsSpace d = false := h.1 d rfl
    constructor
    · intro c hc
      rw [Option.mem_def, collapseWs_head d m, if_neg (by simp [hd]), Option.some.injEq] at hc
      subst hc
      exact hd
    · intro c hc
      rw [Option.mem_def, collapseWs_getLast d m] at hc
      cases hg : (d :: m).getLast? with
      | none => rw [hg] at hc; simp at hc
      | some g =>
        have hgws : pyIsSpace g = false := h.2 g hg
        rw [hg] at hc
        have hcg : c = if pyIsSpace g then ' ' else g := by
          simpa using hc.symm
        rw [if_neg (by simp [hgws])] at hcg
        subst hcg
        exact hgws

theorem collapseWs_fix {l : List Char} (h1 : WsIsSpace l) (h2 : NoWsRun l) :
    collapseWs l = l := by
  induction l using collapseWs.induct with
  | case1 => rfl
  | case2 c =>
    simp only [collapseWs]
    by_cases hc : pyIsSpace c = true
    · rw [if_pos hc, h1 c (List.mem_singleton_self c) hc]
    · rw [if_neg hc]
  | case3 c₁ c₂ rest hcond ih =>
    have hrel := (List.chain'_cons.mp h2).1
    simp only [Bool.and_eq_true] at hcond
    exact absurd hcond hrel
  | case4 c₁ c₂ rest hcond ih =>
    rw [show collapseWs (c₁ :: c₂ :: rest) =
        (if pyIsSpace c₁ then ' ' else c₁) :: collapseWs (c₂ :: rest) from by
      simp only [collapseWs, if_neg hcond]]
    rw [ih (fun c hc => h1 c (List.mem_cons_of_mem c₁ hc)) (List.chain'_cons.mp h2).2]
    by_cases hc : pyIsSpace c₁ = true
    · rw [if_pos hc, h1 c₁ (List.mem_cons_self c₁ _) hc]
    · rw [if_neg hc]

theorem mem_stripWsBeforePunct {l : List Char} {c : Char} (h : c ∈ stripWsBeforePunct l) :
    c ∈ l := by
  induction l with
  | nil => simp [stripWsBeforePunct] at h
  | cons a m ih =>
    simp only [stripWsBeforePunct] at h
    by_cases hc : (pyIsSpace a && nextNonWsIsPunct m) = true
    · rw [if_pos hc] at h
      exact List.mem_cons_of_mem a (ih h)
    · rw [if_neg hc] at h
      rcases List.mem_cons.mp h with h | h
      · exact h ▸ List.mem_cons_self a m
      · exact List.mem_cons_of_mem a (ih h)

theorem stripWsBeforePunct_ne_nil {l : List Char} (h : l ≠ []) :
    stripWsBeforePunct l ≠ [] := by
  induction l with
  | nil => exact absurd rfl h
  | cons a m ih =>
    simp only [stripWsBeforePunct]
    by_cases hc : (pyIsSpace a && nextNonWsIsPunct m) = true
    · rw [if_pos hc]
      have hm : m ≠ [] := by
        intro h0
        subst h0
        simp [nextNonWsIsPunct, List.dropWhile] at hc
      exact ih hm
    · rw [if_neg hc]
      simp

theorem nextNonWsIsPunct_cons_ws {d : Char} {m : List Char} (h : pyIsSpace d = true) :
    nextNonWsIsPunct (d :: m) = nextNonWsIsPunct m := by
  simp [nextNonWsIsPunct, List.dropWhile_cons, h]

theorem nextNonWsIsPunct_cons_not_ws {d : Char} {m : List Char} (h : pyIsSpace d = false) :
    nextNonWsIsPunct (d :: m) = esPuntuacion d := by
  simp [nextNonWsIsPunct, List.dropWhile_cons, h]

theorem nextNonWsIsPunct_strip {l : List Char}
    (h : nextNonWsIsPunct (stripWsBeforePunct l) = true) : nextNonWsIsPunct l = true := by
  induction l with
  | nil => simpa [stripWsBeforePunct] using h
  | cons d m ih =>
    by_cases hc : (pyIsSpace d && nextNonWsIsPunct m) = true
    · obtain ⟨hwd, hnm⟩ : pyIsSpace d = true ∧ nextNonWsIsPunct m = true := by simpa using hc
      rw [nextNonWsIsPunct_cons_ws hwd]
      exact hnm
    · rw [show stripWsBeforePunct (d :: m) = d :: stripWsBeforePunct m from by
        simp only [stripWsBeforePunct, if_neg hc]] at h
      by_cases hwd : pyIsSpace d = true
      · have hnm : nextNonWsIsPunct m = false := by
          rcases Bool.eq_false_or_eq_true (nextNonWsIsPunct m) with h0 | h0
          · exact absurd (by simp [hwd, h0]) hc
          · exact h0
        rw [nextNonWsIsPunct_cons_ws hwd] at h
        rw [ih h] at hnm
        exact absurd hnm (by simp)
      · have hwd' : pyIsSpace d = false := Bool.of_not_eq_true hwd
        rw [nextNonWsIsPunct_cons_not_ws hwd'] at h
        rw [nextNonWsIsPunct_cons_not_ws hwd']
        exact h

theorem stripWsBeforePunct_idem (l : List Char) :
    stripWsBeforePunct (stripWsBeforePunct l) = stripWsBeforePunct l := by
  induction l with
  | nil => rfl
  | cons d m ih =>
    by_cases hc : (pyIsSpace d && nextNonWsIsPunct m) = true
    · rw [show stripWsBeforePunct (d :: m) = stripWsBeforePunct m from by
        simp only [stripWsBeforePunct, if_pos hc]]
      exact ih
    · rw [show stripWsBeforePunct (d :: m) = d :: stripWsBeforePunct m from by
        simp only [stripWsBeforePunct, if_neg hc]]
      have hc2 : ¬(pyIsSpace d && nextNonWsIsPunct (stripWsBeforePunct m)) = true := by
        intro h0
        obtain ⟨hwd, hns⟩ : pyIsSpace d = true ∧
            nextNonWsIsPunct (stripWsBeforePunct m) = true := by simpa using h0
        exact hc (by simp [hwd, nextNonWsIsPunct_strip hns])
      rw [show stripWsBeforePunct (d :: stripWsBeforePunct m) =
          d :: stripWsBeforePunct (stripWsBeforePunct m) from by
        simp only [stripWsBeforePunct, if_neg hc2]]
      rw [ih]

theorem stripWsBeforePunct_head_ws {l : List Char} {e : Char}
    (he : (stripWsBeforePunct l).head? = some e) (hws : pyIsSpace e = true) :
    ∃ d, l.head? = some d ∧ pyIsSpace d = true := by
  cases l with
  | nil => simp [stripWsBeforePunct] at he
  | cons a m =>
    by_cases hc : (pyIsSpace a && nextNonWsIsPunct m) = true
    · exact ⟨a, rfl, by simpa using (Bool.and_eq_true _ _ |>.mp hc).1⟩
    · rw [show stripWsBeforePunct (a :: m) = a :: stripWsBeforePunct m from by
        simp only [stripWsBeforePunct, if_neg hc]] at he
      rw [List.head?_cons, Option.some.injEq] at he
      exact ⟨a, rfl, he ▸ hws⟩

theorem stripWsBeforePunct_getLast_ws {l : List Char} {e : Char}
    (he : (stripWsBeforePunct l).getLast? = some e) (hws : pyIsSpace e = true) :
    ∃ d, l.getLast? = some d ∧ pyIsSpace d = true := by
  induction l with
  | nil => simp [stripWsBeforePunct] at he
  | cons a m ih =>
    by_cases hc : (pyIsSpace a && nextNonWsIsPunct m) = true
    · rw [show stripWsBeforePunct (a :: m) = stripWsBeforePunct m from by
        simp only [stripWsBeforePunct, if_pos hc]] at he
      obtain ⟨d, hd, hwd⟩ := ih he
      have hm : m ≠ [] := by
        intro h0
        subst h0
        simp at hd
      cases m with
      | nil => exact absurd rfl hm
      | cons b m' => exact ⟨d, by rwa [List.getLast?_cons_cons], hwd⟩
    · rw [show stripWsBeforePunct (a :: m) = a :: stripWsBeforePunct m from by
        simp only [stripWsBeforePunct, if_neg hc]] at he
      cases hsm : stripWsBeforePunct m with
      | nil =>
        have hm : m = [] := by
          by_contra hm0
          exact stripWsBeforePunct_ne_nil hm0 hsm
        subst hm
        rw [hsm] at he
        have hae : a = e := by simpa using he
        exact ⟨a, rfl, hae ▸ hws⟩
      | cons y t =>
        rw [hsm, List.getLast?_cons_cons, ← hsm] at he
        obtain ⟨d, hd, hwd⟩ := ih he
        have hm : m ≠ [] := by
          intro h0
          subst h0
          simp [stripWsBeforePunct] at hsm
        cases m with
        | nil => exact absurd rfl hm
        | cons b m' => exact ⟨d, by rwa [List.getLast?_cons_cons], hwd⟩

theorem stripWsBeforePunct_noWsRun {l : List Char} (h : NoWsRun l) :
    NoWsRun (stripWsBeforePunct l) := by
  induction l with
  | nil => exact List.chain'_nil
  | cons a m ih =>
    have htail : NoWsRun m := (List.chain'_cons'.mp h).2
    by_cases hc : (pyIsSpace a && nextNonWsIsPunct m) = true
    · rw [NoWsRun, show stripWsBeforePunct (a :: m) = stripWsBeforePunct m from by
        simp only [stripWsBeforePunct, if_pos hc]]
      exact ih htail
    · rw [NoWsRun, show stripWsBeforePunct (a :: m) = a :: stripWsBeforePunct m from by
        simp only [stripWsBeforePunct, if_neg hc]]
      rw [List.chain'_cons']
      refine ⟨?_, ih htail⟩
      intro e he hcontra
      obtain ⟨d, hd, hwd⟩ := stripWsBeforePunct_head_ws he hcontra.2
      exact (List.chain'_cons'.mp h).1 d hd ⟨hcontra.1, hwd⟩

theorem stripWsBeforePunct_noEdge {l : List Char} (h : NoEdgeWs l) :
    NoEdgeWs (stripWsBeforePunct l) := by
  constructor
  · intro e he
    cases l with
    | nil => simp [stripWsBeforePunct] at he
    | cons a m =>
      have hwa : pyIsSpace a = false := h.1 a rfl
      have hcond : ¬(pyIsSpace a && nextNonWsIsPunct m) = true := by simp [hwa]
      rw [Option.mem_def, show stripWsBeforePunct (a :: m) = a :: stripWsBeforePunct m from by
        simp only [stripWsBeforePunct, if_neg hcond]] at he
      rw [List.head?_cons, Option.some.injEq] at he
      exact he ▸ hwa
  · intro e he
    rcases Bool.eq_false_or_eq_true (pyIsSpace e) with h0 | h0
    · obtain ⟨d, hd, hwd⟩ := stripWsBeforePunct_getLast_ws he h0
      rw [h.2 d hd] at hwd
      exact absurd hwd (by simp)
    · exact h0

/-! #### C7 — text normalisation idempotence -/

/-- Counterexample to claim C7 as stated: a whitespace-only string
normalises to the empty string, and renormalising that yields an absent
result, so idempotence fails on it. -/
theorem normalizar_no_idempotente_en_blanco :
    normalizar (normalizar (some " ")) ≠ normalizar (some " ") := by decide

/-- Claim C7 (amended): `normalizar` is idempotent on every input whose
normalisation is not the empty string (a whitespace-only or purely
non-ASCII string normalises to the empty string, which the second
application turns into an absent result); `"Educación"` normalises to
`"EDUCACION"`; absent and empty input yield an absent result. -/
theorem normalizar_idempotente :
    (∀ s : Option String, normalizar s ≠ some "" →
        normalizar (normalizar s) = normalizar s) ∧
    normalizar (some "Educación") = some "EDUCACION" ∧
    normalizar none = none ∧
    normalizar (some "") = none := by
  refine ⟨?_, by decide, rfl, by decide⟩
  intro s hne
  cases s with
  | none => rfl
  | some str =>
    by_cases he : str.isEmpty
    · rw [show normalizar (some str) = none from by unfold normalizar; dsimp only; rw [if_pos he]]
      rfl
    · have hdef : normalizar (some str) = some (String.mk (stripWsBeforePunct (collapseWs
          (pyStrip ((str.data.flatMap nfkdCharAscii).map pyUpperChar))))) := by
        unfold normalizar
        dsimp only
        rw [if_neg he]
      set A : List Char := (str.data.flatMap nfkdCharAscii).map pyUpperChar with hA
      set B : List Char := pyStrip A with hB
      set C : List Char := collapseWs B with hC
      set D : List Char := stripWsBeforePunct C with hD
      have hDne : D ≠ [] := by
        intro h0
        apply hne
        rw [hdef, h0]
      have hAascii : AllAscii A := by
        intro c hc
        rw [hA] at hc
        obtain ⟨d, hd, hdc⟩ := List.mem_map.mp hc
        obtain ⟨x, _, hdx⟩ := List.mem_flatMap.mp hd
        exact hdc ▸ pyUpperChar_ascii d (nfkdCharAscii_ascii x d hdx)
      have hAupper : UpperFixed A := by
        intro c hc
        rw [hA] at hc
        obtain ⟨d, _, hdc⟩ := List.mem_map.mp hc
        exact hdc ▸ pyUpperChar_idem d
      have hBascii : AllAscii B := by
        intro c hc
        rw [hB] at hc
        exact hAascii c (mem_pyStrip hc)
      have hBupper : UpperFixed B := by
        intro c hc
        rw [hB] at hc
        exact hAupper c (mem_pyStrip hc)
      have hBedge : NoEdgeWs B := hB ▸ pyStrip_noEdge A
      have hCws : WsIsSpace C := hC ▸ collapseWs_wsIsSpace B
      have hCrun : NoWsRun C := hC ▸ collapseWs_noWsRun B
      have hCedge : NoEdgeWs C := hC ▸ collapseWs_noEdge hBedge
      have hCascii : AllAscii C := by
        intro c hc
        rw [hC] at hc
        rcases collapseWs_mem hc with h | h
        · exact hBascii c h
        · rw [h]; decide
      have hCupper : UpperFixed C := by
        intro c hc
        rw [hC] at hc
        rcases collapseWs_mem hc with h | h
        · exact hBupper c h
        · rw [h]; decide
      have hDascii : AllAscii D := by
        intro c hc
        rw [hD] at hc
        exact hCascii c (mem_stripWsBeforePunct hc)
      have hDupper : UpperFixed D := by
        intro c hc
        rw [hD] at hc
        exact hCupper c (mem_stripWsBeforePunct hc)
      have hDws : WsIsSpace D := by
        intro c hc hws
        rw [hD] at hc
        exact hCws c (mem_stripWsBeforePunct hc) hws
      have hDrun : NoWsRun D := hD ▸ stripWsBeforePunct_noWsRun hCrun
      have hDedge : NoEdgeWs D := hD ▸ stripWsBeforePunct_noEdge hCedge
      rw [hdef]
      have hmkE : ¬(String.mk D).isEmpty = true := by
        rw [String.isEmpty_iff]
        intro h0
        exact hDne (congrArg String.data h0)
      unfold normalizar
      dsimp only
      rw [if_neg hmkE]
      refine congrArg some ?_
      rw [flatMap_nfkd_of_ascii hDascii, map_pyUpper_fixed hDupper, pyStrip_fix hDedge,
        collapseWs_fix hDws hDrun, hD, stripWsBeforePunct_idem]

/-- Witness for the amended C7 at a concrete input. -/
theorem normalizar_idempotente_witness :
    normalizar (normalizar (some "ab")) = normalizar (some "ab") :=
  normalizar_idempotente.1 (some "ab") (by decide)

end Bdns
